import Mathlib

/-!
Shallow embedding of the pyssub repository's batch-script toolkit.

Part one models `src/pyssub/sbatch.py`: the classes `SBatchScript` and
`SBatchScriptMacro`, the script skeleton `_skeleton`, the JSON encoder
`SBatchScriptEncoder`, `load`, and `collection`.  Part two models
`src/pyssub/scmd.py`: `submit`'s stdout parsing and `failed`.  Part three
models the submission governor `SBatch.__call__` of `src/pyslurm/submit.py`.

Python strings are Lean `String`s (or `List Char` where character-level
parsing matters), Python dicts are insertion-ordered association lists,
raised exceptions are `Except`/`Option` error results, and the external
Slurm commands (`sbatch`, `squeue`, `sacct`) are oracle functions supplied
as parameters.
-/

set_option autoImplicit false

namespace PyssubModel

/-! ## The Slurm batch script (`pyssub/sbatch.py`, class `SBatchScript`)

Option values (`options : dict(str, object)`) are modelled by the string
`str(value)` renders, which is all that both the script rendering and the
JSON encoder ever use of them. -/

/-- Class `SBatchScript` (sbatch.py lines 10-46): executable, arguments,
sbatch options and the file-transfer lists, with the constructor defaults of
`__init__`. -/
structure SBatchScript where
  executable : String
  arguments : String := ""
  options : List (String × String) := []
  transfer_executable : Bool := false
  transfer_input_files : List String := []
  transfer_output_files : List String := []
  deriving Repr, DecidableEq

/-- The dict built by the property `SBatchScript._description`
(sbatch.py lines 56-80): six fixed keys, each holding a string. -/
structure ScriptDescr where
  options : String
  executable : String
  arguments : String
  transfer_executable : String
  transfer_input_files : String
  transfer_output_files : String
  deriving Repr, DecidableEq

/-- Property `SBatchScript._description` (sbatch.py lines 56-80): renders
the option directives (one `#SBATCH --key=value` line per entry, insertion
order), quotes each transfer file in apostrophes separated by blanks, and
lowercases the Python `bool`. -/
def SBatchScript.description (s : SBatchScript) : ScriptDescr where
  options :=
    String.intercalate "\n" (s.options.map fun kv => "#SBATCH --" ++ kv.1 ++ "=" ++ kv.2)
  executable := s.executable
  arguments := s.arguments
  transfer_executable := if s.transfer_executable then "true" else "false"
  transfer_input_files :=
    String.intercalate " " (s.transfer_input_files.map fun f => "'" ++ f ++ "'")
  transfer_output_files :=
    String.intercalate " " (s.transfer_output_files.map fun f => "'" ++ f ++ "'")

/-! The module-level skeleton `_skeleton` (sbatch.py lines 298-389), split at
its six replacement fields.  `str.format` copies the literal text (with
`\x7b\x7b`/`\x7d\x7d` unescaped to single braces, written `\x7b`/`\x7d`
below) and splices the description values verbatim, so string concatenation
models it exactly. -/

/-- Skeleton text before `descr[options]`. -/
def skChunk0 : String := "#!/usr/bin/env bash\n\n"

/-- Skeleton text between `descr[options]` and `descr[executable]`. -/
def skChunk1 : String := "\n\necho \"Working on node `hostname`.\"\necho \"Current directory: `pwd`\"\n\nif [ -z $SLURM_JOB_ID ]\nthen\n    workdir=\"slurm\"\nelse\n    workdir=\"slurm_$SLURM_JOB_ID\"\nfi\n\necho 'Create working directory:'\nmkdir -v $workdir\n\nstatus=$?\nif [ $status -ne 0 ]\nthen\n    exit $status\nfi\n\nfunction cleanup() \x7b\n    echo 'Remove working directory:'\n    cd ..\n    rm -rv $workdir\n\x7d\n\ncd $workdir\n\nexecutable="

/-- Skeleton text between `descr[executable]` and `descr[transfer_executable]`. -/
def skChunk2 : String := "\ntransfer_executable="

/-- Skeleton text between `descr[transfer_executable]` and
`descr[transfer_input_files]`. -/
def skChunk3 : String := "\n\nif [ \"$transfer_executable\" = \"true\" ]\nthen\n    echo 'Transfer executable to node:'\n    cp -v $executable .\n\n    status=$?\n    if [ $status -ne 0 ]\n    then\n        cleanup\n        exit $status\n    fi\n\n    executable=./`basename $executable`\nfi\n\ninputfiles=("

/-- Skeleton text between `descr[transfer_input_files]` and
`descr[arguments]`. -/
def skChunk4 : String := ")\n\necho 'Transfer input files to node:'\nstatus=0\nfor inputfile in $\x7binputfiles[*]\x7d\ndo\n    cp -v $inputfile .\n    status+=$?\ndone\n\nif [ $status -ne 0 ]\nthen\n    cleanup\n    exit $status\nfi\n\necho 'Execute...'\n$executable "

/-- Skeleton text between `descr[arguments]` and
`descr[transfer_output_files]`. -/
def skChunk5 : String := "\n\nstatus=$?\nif [ $status -ne 0 ]\nthen\n    cleanup\n    exit $status\nfi\n\noutputfiles=("

/-- Skeleton text after `descr[transfer_output_files]`. -/
def skChunk6 : String := ")\n\necho 'Transfer output files:'\nstatus=0\nfor outputfile in $\x7boutputfiles[*]\x7d\ndo\n    mv -v `basename $outputfile` $outputfile\n    status+=$?\ndone\n\nif [ $status -ne 0 ]\nthen\n    cleanup\n    exit $status\nfi\n\ncleanup"

/-- `_skeleton.format(descr=d)`: the skeleton with the six description
values spliced in. -/
def skeletonFormat (d : ScriptDescr) : String :=
  skChunk0 ++ d.options ++ skChunk1 ++ d.executable ++ skChunk2 ++
    d.transfer_executable ++ skChunk3 ++ d.transfer_input_files ++ skChunk4 ++
    d.arguments ++ skChunk5 ++ d.transfer_output_files ++ skChunk6

/-- Method `SBatchScript.__str__` (sbatch.py lines 48-50). -/
def SBatchScript.str (s : SBatchScript) : String :=
  skeletonFormat s.description

/-- Method `SBatchScript.__eq__` (sbatch.py lines 52-54): scripts compare
equal iff their rendered texts are identical. -/
def SBatchScript.eq (s other : SBatchScript) : Prop :=
  s.str = other.str

/-! ## Macro substitution (`pyssub/sbatch.py`, class `SBatchScriptMacro`)

`SBatchScriptMacro.__str__` (lines 111-120) runs
`v.format(macros=self.macros)` over every description value.  We model the
format mini-language for the one keyword argument the scripts use: literal
text, doubled braces as escapes, and replacement fields of the exact shape
`macros[NAME]` (a bare `:format_spec` or `!conversion`, never used by the
repository's scripts, is modelled as a formatting error, as are all the
other malformed fields Python rejects).  Macro values (`dict(str, object)`)
are modelled by the strings `str.format` splices in for them. -/

/-- Split a character list at the first occurrence of `target` (the
occurrence itself is dropped); `none` when `target` does not occur. -/
def breakAtChar (target : Char) : List Char → Option (List Char × List Char)
  | [] => none
  | c :: cs =>
    if c = target then some ([], cs)
    else
      match breakAtChar target cs with
      | none => none
      | some (pre, post) => some (c :: pre, post)

/-- Parse a replacement field of the shape `macros[NAME]` and return `NAME`;
any other field errors. -/
def fieldName (field : List Char) : Option String :=
  if ("macros[".toList).isPrefixOf field then
    match breakAtChar ']' (field.drop 7) with
    | none => none
    | some (name, after) => if after = [] then some (String.mk name) else none
  else none

/-- `text.format(macros=m)` (Python's `str.format` restricted to
`macros[NAME]` fields): substitutes every field from `m`, unescapes doubled
braces, and returns `none` for a missing macro name (Python's `KeyError`),
an unmatched or single brace, or a field of any other shape.  A replacement
field is the text up to the first closing brace: its characters are
`cs.takeWhile`, what follows the closing brace is the tail of
`cs.dropWhile`. -/
def pyFormat (m : List (String × String)) : List Char → Option (List Char)
  | [] => some []
  | '{' :: '{' :: cs => (pyFormat m cs).map (fun t => '{' :: t)
  | '}' :: '}' :: cs => (pyFormat m cs).map (fun t => '}' :: t)
  | '{' :: cs =>
    match h : cs.dropWhile (fun c => c != '}') with
    | [] => none
    | _ :: rest =>
      match fieldName (cs.takeWhile (fun c => c != '}')) with
      | none => none
      | some name =>
        match m.lookup name with
        | none => none
        | some v => (pyFormat m rest).map (fun t => v.toList ++ t)
  | '}' :: _ => none
  | c :: cs => (pyFormat m cs).map (fun t => c :: t)
termination_by cs => cs.length
decreasing_by
  all_goals simp_wf
  all_goals try omega
  all_goals
    have hle := (@List.dropWhile_sublist Char cs (fun c => c != '}')).length_le
    rw [h] at hle
    simp at hle
    omega

/-- The macro names the replacement fields of `text` reference, in order;
`none` when `text` is malformed for `str.format` (so formatting would error
regardless of the supplied macros). -/
def collectRefs : List Char → Option (List String)
  | [] => some []
  | '{' :: '{' :: cs => collectRefs cs
  | '}' :: '}' :: cs => collectRefs cs
  | '{' :: cs =>
    match h : cs.dropWhile (fun c => c != '}') with
    | [] => none
    | _ :: rest =>
      match fieldName (cs.takeWhile (fun c => c != '}')) with
      | none => none
      | some name => (collectRefs rest).map (fun l => name :: l)
  | '}' :: _ => none
  | _ :: cs => collectRefs cs
termination_by cs => cs.length
decreasing_by
  all_goals simp_wf
  all_goals try omega
  all_goals
    have hle := (@List.dropWhile_sublist Char cs (fun c => c != '}')).length_le
    rw [h] at hle
    simp at hle
    omega

/-- `v.format(macros=m)` on a `String` value. -/
def pyFormatStr (m : List (String × String)) (v : String) : Option String :=
  (pyFormat m v.toList).map String.mk

/-- Class `SBatchScriptMacro` (sbatch.py lines 84-124): a script together
with the macro values inserted at render time. -/
structure SBatchScriptMacro where
  script : SBatchScript
  macros : List (String × String)
  deriving Repr, DecidableEq

/-- Method `SBatchScriptMacro.__str__` (sbatch.py lines 111-120): format
every description value with the macros, then splice the formatted values
into the skeleton; `none` models the exception Python raises out of
`v.format` (e.g. `KeyError` for a missing macro). -/
def SBatchScriptMacro.str (s : SBatchScriptMacro) : Option String := do
  let d := s.script.description
  let options ← pyFormatStr s.macros d.options
  let executable ← pyFormatStr s.macros d.executable
  let arguments ← pyFormatStr s.macros d.arguments
  let transfer ← pyFormatStr s.macros d.transfer_executable
  let inputFiles ← pyFormatStr s.macros d.transfer_input_files
  let outputFiles ← pyFormatStr s.macros d.transfer_output_files
  return skeletonFormat
    { options := options, executable := executable, arguments := arguments,
      transfer_executable := transfer, transfer_input_files := inputFiles,
      transfer_output_files := outputFiles }

/-- The six description values of a script, in the order
`SBatchScriptMacro.__str__` formats them (the insertion order of the
`_description` dict). -/
def descrFields (d : ScriptDescr) : List String :=
  [d.options, d.executable, d.arguments, d.transfer_executable,
    d.transfer_input_files, d.transfer_output_files]

/-! ## Persistence (`pyssub/sbatch.py`: `SBatchScriptEncoder`, `load`, `save`)

`save` writes `json.dump(script, ..., cls=SBatchScriptEncoder)` and `load`
reads the JSON object back, so the persisted representation is the JSON
object `SBatchScriptEncoder._encode` builds: the `executable` key always,
the other keys only when non-empty (`transfer_executable` always).  A JSON
object is modelled as a record of `Option` fields (`none` = key absent);
option values go through `str`, which on the string-valued model is the
identity. -/

/-- The JSON object a saved script holds (`load`'s docstring, lines
168-189): only `executable` is mandatory. -/
structure ScriptJSON where
  executable : String
  arguments : Option String
  transfer_executable : Option Bool
  options : Option (List (String × String))
  transfer_input_files : Option (List String)
  transfer_output_files : Option (List String)
  deriving Repr, DecidableEq

/-- Method `SBatchScriptEncoder._encode` (sbatch.py lines 142-162): keys
`arguments`, `options` and the transfer lists are written only when
non-empty; `transfer_executable` is always written. -/
def encodeScript (s : SBatchScript) : ScriptJSON where
  executable := s.executable
  arguments := if s.arguments.length > 0 then some s.arguments else none
  transfer_executable := some s.transfer_executable
  options := if s.options.length > 0 then some s.options else none
  transfer_input_files :=
    if s.transfer_input_files.length > 0 then some s.transfer_input_files else none
  transfer_output_files :=
    if s.transfer_output_files.length > 0 then some s.transfer_output_files else none

/-- Function `load` (sbatch.py lines 202-222) applied to the parsed JSON
object: missing keys fall back to the constructor defaults
(`description.get(...)`, `update`/`extend` of the initially empty
attributes). -/
def loadScript (d : ScriptJSON) : SBatchScript where
  executable := d.executable
  arguments := d.arguments.getD ""
  transfer_executable := d.transfer_executable.getD false
  options := d.options.getD []
  transfer_input_files := d.transfer_input_files.getD []
  transfer_output_files := d.transfer_output_files.getD []

/-! ## Script collections (`pyssub/sbatch.py`, function `collection`) -/

/-- One entry of a collection file (collection's docstring, lines 249-264):
`name` and `script` always parse, while the `macros` key may be absent
(`none`), in which case `description["macros"]` raises `KeyError`. -/
structure CollectionEntry where
  name : String
  script : String
  macros : Option (List (String × String))
  deriving Repr, DecidableEq

/-- The filter `rescue is not None and name not in rescue` of the loop in
`collection` (sbatch.py line 287). -/
def rescueSkips (rescue : Option (List String)) (name : String) : Bool :=
  match rescue with
  | some r => !(r.contains name)
  | none => false

/-- Function `collection` (sbatch.py lines 280-294) after the JSON list has
been parsed: `loadFile` stands for `load` applied to the named script file.
Entries whose name is filtered away by `rescue` are skipped before their
`macros` key is touched; for a kept entry, `description["macros"]` raises
`KeyError` (`.error`) when the key is absent.  The result keeps the
insertion order of `scripts[name] = ...`. -/
def collectionLoad (loadFile : String → SBatchScript) (rescue : Option (List String)) :
    List CollectionEntry → Except String (List (String × SBatchScriptMacro))
  | [] => .ok []
  | e :: es =>
    if rescueSkips rescue e.name then
      collectionLoad loadFile rescue es
    else
      match e.macros with
      | none => .error "KeyError: 'macros'"
      | some m =>
        match collectionLoad loadFile rescue es with
        | .ok rest => .ok ((e.name, ⟨loadFile e.script, m⟩) :: rest)
        | .error msg => .error msg

/-! ## Decimal job IDs

`scmd.py` renders job IDs with `"{}".format(jobid)` and parses them back
with `\d+` and `int(...)`.  `natRepr` is Python's decimal `str` on a
non-negative integer, `takeDigits` the greedy `\d+`, and `natOfDigits`
Python's `int` on a digit string. -/

/-- Decimal representation of `n` (Python `str(n)`), most significant digit
first. -/
def natRepr (n : Nat) : List Char :=
  if n = 0 then ['0'] else (Nat.digits 10 n).reverse.map Nat.digitChar

/-- Longest prefix of decimal digits together with the remainder: the
greedy regex atom `\d+` (zero digits means the atom fails). -/
def takeDigits : List Char → List Char × List Char
  | [] => ([], [])
  | c :: cs =>
    if c.isDigit then (c :: (takeDigits cs).1, (takeDigits cs).2)
    else ([], c :: cs)

/-- Numeric value of a digit string (Python `int`). -/
def natOfDigits (ds : List Char) : Nat :=
  ds.foldl (fun a c => 10 * a + (c.toNat - 48)) 0

/-! ## Submission (`pyssub/scmd.py`, function `submit`, lines 61-69) -/

/-- The literal part of the regex `Submitted batch job (?P<jobid>\d+)`. -/
def submittedPrefix : List Char := "Submitted batch job ".toList

/-- `re.match(r"Submitted batch job (?P<jobid>\d+)", stdout)` followed by
`int(match.group("jobid"))`: the regex must match at the start of `stdout`;
`none` models `match is None`. -/
def matchJobid (stdout : List Char) : Option Nat :=
  if submittedPrefix.isPrefixOf stdout then
    if (takeDigits (stdout.drop submittedPrefix.length)).1 = [] then none
    else some (natOfDigits (takeDigits (stdout.drop submittedPrefix.length)).1)
  else none

/-- The tail of `pyssub.scmd.submit` (lines 61-69): parse `sbatch`'s captured
stdout; `.error` models the `RuntimeError` raised when the job ID cannot be
matched. -/
def submitParse (stdout : List Char) : Except String Nat :=
  match matchJobid stdout with
  | none => .error ("Cannot match job ID from '" ++ String.mk stdout ++ "'.")
  | some jobid => .ok jobid

/-- The pattern `Submitted batch job <digit>` occurs somewhere in `out`
(the spec reading of "the pattern is present in the output"). -/
def submittedPatternPresent (out : List Char) : Prop :=
  ∃ i c, c.isDigit = true ∧ (submittedPrefix ++ [c]).isPrefixOf (out.drop i) = true

/-! ## Terminal states (`pyssub/scmd.py`, function `failed`, lines 106-169)

The external `sacct` invocation is modelled by an oracle mapping each
queried job-ID string (`"<id>.batch"`) to the state string `sacct` reports
in that row; one invocation on a chunk yields one already-whitespace-split
row `[jobid, state]` per queried ID. -/

/-- `"{}.batch".format(jobid)` (line 128). -/
def fmtJobid (jobid : Nat) : List Char := natRepr jobid ++ ".batch".toList

/-- `max(len(jobid) for jobid in jobids)` (line 129): Python's `max` raises
`ValueError` on an empty sequence. -/
def maxLen (jobids : List (List Char)) : Except String Nat :=
  match jobids with
  | [] => .error "max() arg is an empty sequence"
  | x :: xs => .ok ((xs.map List.length).foldl max x.length)

/-- The slices `jobids[start:start+1000]` for `start in
range(0, len(jobids), 1000)` (lines 134-135). -/
def pyChunks {α : Type} : List α → List (List α)
  | [] => []
  | x :: xs => ((x :: xs).take 1000) :: pyChunks ((x :: xs).drop 1000)
termination_by l => l.length
decreasing_by
  simp only [List.length_drop, List.length_cons]
  omega

/-- One `sacct` invocation on a chunk of job-ID strings (lines 137-149): one
split output row `[jobid, state]` per queried ID, with the state given by
the oracle. -/
def sacctRows (oracle : List Char → String) (chunk : List (List Char)) :
    List (List Char × String) :=
  chunk.map fun q => (q, oracle q)

/-- `re.match(r"(?P<jobid>\d+).batch", s)` followed by `int(...)` (lines
151-162): greedy `\d+` with backtracking, `.` matching any one character,
then the literal `batch`; `re.match` needs only a prefix of `s` to match.
`tryLen` is the number of digits currently claimed by `\d+`. -/
def jobidBatchTry (s : List Char) : Nat → Option Nat
  | 0 => none
  | tryLen + 1 =>
    match s.drop (tryLen + 1) with
    | [] => jobidBatchTry s tryLen
    | _ :: tail =>
      if ("batch".toList).isPrefixOf tail then some (natOfDigits (s.take (tryLen + 1)))
      else jobidBatchTry s tryLen

/-- Parse the numeric job ID out of a `<digits>.batch` row key, `none` when
the pattern does not match. -/
def parseJobidBatch (s : List Char) : Option Nat :=
  jobidBatchTry s (takeDigits s).1.length

/-- Lines 153-162: walk the split rows, collect the parsed IDs of the rows
whose state is not `COMPLETED`, and raise `RuntimeError` (`.error`) for a
non-matching row key. -/
def selectFailed : List (List Char × String) → Except String (List Nat)
  | [] => .ok []
  | (q, st) :: rows =>
    if st = "COMPLETED" then selectFailed rows
    else
      match parseJobidBatch q with
      | none => .error ("Cannot match job ID from '" ++ String.mk q ++ "'.")
      | some jid =>
        match selectFailed rows with
        | .ok sel => .ok (jid :: sel)
        | .error msg => .error msg

/-- Function `pyssub.scmd.failed` (lines 106-169): format the job IDs,
compute the column width (whose `max` raises on an empty mapping), query
`sacct` once per chunk of 1000 formatted IDs, concatenate the split rows,
select the IDs of the non-`COMPLETED` rows, and keep the jobs whose ID was
selected. -/
def failedRun (oracle : List Char → String) (jobs : List (String × Nat)) :
    Except String (List (String × Nat)) :=
  match maxLen (jobs.map fun p => fmtJobid p.2) with
  | .error e => .error e
  | .ok _width =>
    match selectFailed
        (((pyChunks (jobs.map fun p => fmtJobid p.2)).map (sacctRows oracle)).flatten) with
    | .error e => .error e
    | .ok sel => .ok (jobs.filter fun p => sel.contains p.2)

/-- Specification-side variant of `failedRun` that queries all job IDs in a
single `sacct` invocation, for the comparison "the classification result is
the same as if all IDs had been queried in a single invocation". -/
def failedRunSingle (oracle : List Char → String) (jobs : List (String × Nat)) :
    Except String (List (String × Nat)) :=
  match maxLen (jobs.map fun p => fmtJobid p.2) with
  | .error e => .error e
  | .ok _width =>
    match selectFailed (sacctRows oracle (jobs.map fun p => fmtJobid p.2)) with
    | .error e => .error e
    | .ok sel => .ok (jobs.filter fun p => sel.contains p.2)

/-! ## The submission governor (`pyslurm/submit.py`, `SBatch.__call__`)

The loop (lines 50-57) reads, per iteration, the observed queue depth
`self.njobs(userid, partition)` — an external `squeue` call, modelled as the
next element of a finite list of observed depths (the loop's fuel) — and
pops/submits `nnew = self.nmax - njobs` jobs.  `scripts` is a Python dict of
job names to scripts; `dict.popitem()` removes the most recently inserted
entry and raises `KeyError` on an empty dict.  `self.submit(script,
partition)` is modelled by an oracle from the script to the job ID `sbatch`
reports. -/

/-- A `dict` of job names to batch-script texts as an insertion-ordered
association list. -/
abbrev ScriptsDict := List (String × String)

/-- Outcome of the inner `for _ in range(nnew): scripts.popitem()` loop of
one iteration: either all requested pops succeed, or `popitem` was called
on an empty dict (`KeyError`) after `popped` entries had been popped and
submitted. -/
inductive PopResult where
  | ok (popped : List (String × String)) (rest : ScriptsDict)
  | keyError (popped : List (String × String))
  deriving Repr, DecidableEq

/-- `k` successive `scripts.popitem()` calls (line 54), each removing the
last entry. -/
def popitemN : Nat → ScriptsDict → PopResult
  | 0, d => .ok [] d
  | _ + 1, [] => .keyError []
  | k + 1, x :: xs =>
    let it := (x :: xs).getLast (List.cons_ne_nil x xs)
    match popitemN k ((x :: xs).dropLast) with
    | .ok popped rest => .ok (it :: popped) rest
    | .keyError popped => .keyError (it :: popped)

/-- Number of entries a pop-loop outcome removed from the dict (each one
was submitted right after being popped). -/
def PopResult.admitted : PopResult → Nat
  | .ok popped _ => popped.length
  | .keyError popped => popped.length

/-- `nnew = self.nmax - self.njobs(userid, partition)` (line 51): Python
integers are unbounded, so the difference can be negative. -/
def nnew (nmax depth : Nat) : Int := (nmax : Int) - (depth : Int)

/-- The pops of one loop iteration: `range(nnew)` iterates
`max 0 nnew` times (an empty range for a non-positive `nnew`). -/
def stepPops (nmax depth : Nat) (d : ScriptsDict) : PopResult :=
  popitemN (nnew nmax depth).toNat d

/-- What one iteration of the `while` loop recorded: the observed queue
depth and how many jobs were popped and submitted. -/
structure IterRecord where
  depth : Nat
  admitted : Nat
  deriving Repr, DecidableEq

/-- How a run of `SBatch.__call__` ended: the loop exited normally
(`finished`, returning `jobids`), `popitem` raised `KeyError` out of the
call, or the list of observed depths ran out with jobs still pending
(`running`: the loop would poll again). -/
inductive RunResult where
  | finished (jobids : List (String × Nat))
  | keyError (jobids : List (String × Nat))
  | running (jobids : List (String × Nat)) (pending : ScriptsDict)
  deriving Repr, DecidableEq

/-- `jobids[name] = self.submit(script, partition)` for each popped entry
(line 55), in pop order. -/
def submitAll (submitF : String → Nat) (popped : List (String × String)) :
    List (String × Nat) :=
  popped.map fun p => (p.1, submitF p.2)

/-- The `while len(scripts) > 0` loop (lines 50-57), one observed depth per
iteration, together with the per-iteration trace. -/
def runLoop (nmax : Nat) (submitF : String → Nat) :
    List Nat → ScriptsDict → List (String × Nat) → List IterRecord × RunResult
  | _, [], jobids => ([], .finished jobids)
  | [], d, jobids => ([], .running jobids d)
  | depth :: depths, d, jobids =>
    match stepPops nmax depth d with
    | .ok popped rest =>
      let out := runLoop nmax submitF depths rest (jobids ++ submitAll submitF popped)
      (⟨depth, popped.length⟩ :: out.1, out.2)
    | .keyError popped =>
      ([⟨depth, popped.length⟩], .keyError (jobids ++ submitAll submitF popped))

/-- Method `SBatch.__call__` (lines 34-59): copy the input mapping
(`scripts = dict(scripts)`, the identity on the value) and run the
submission loop with `jobids = {}`. -/
def SBatchCall (nmax : Nat) (submitF : String → Nat) (scripts : ScriptsDict)
    (depths : List Nat) : List IterRecord × RunResult :=
  runLoop nmax submitF depths scripts []

/-! ## Dict objects under mutation (for the frame property of
`SBatch.__call__`)

`scripts = dict(scripts)` (line 47) matters because `popitem` mutates the
dict object in place.  To state that the caller's mapping is untouched, the
dict objects live on a heap of addressed cells: the call copies the
caller's dict into a freshly allocated cell and the loop mutates only that
cell. -/

/-- A heap of dict objects; an address is an index. -/
abbrev DictHeap := List ScriptsDict

/-- Read the dict object at address `a`. -/
def heapRead (h : DictHeap) (a : Nat) : ScriptsDict := (h.get? a).getD []

/-- Overwrite the dict object at address `a`. -/
def heapWrite (h : DictHeap) (a : Nat) (d : ScriptsDict) : DictHeap := h.set a d

/-- The submission loop acting on the working dict object at address `b`:
each iteration reads the object, pops it and writes the popped object back
(the `KeyError` iteration leaves the emptied object behind). -/
def runLoopH (nmax : Nat) (submitF : String → Nat) :
    List Nat → DictHeap → Nat → List (String × Nat) → DictHeap × RunResult
  | [], h, b, jobids =>
    if heapRead h b = [] then (h, .finished jobids)
    else (h, .running jobids (heapRead h b))
  | depth :: depths, h, b, jobids =>
    let d := heapRead h b
    if d = [] then (h, .finished jobids)
    else
      match stepPops nmax depth d with
      | .ok popped rest =>
        runLoopH nmax submitF depths (heapWrite h b rest) b
          (jobids ++ submitAll submitF popped)
      | .keyError popped =>
        (heapWrite h b [], .keyError (jobids ++ submitAll submitF popped))

/-- Method `SBatch.__call__` on the heap: `a` is the address of the
caller's dict; `scripts = dict(scripts)` allocates a fresh cell holding a
copy, and the loop runs on that cell. -/
def SBatchCallH (nmax : Nat) (submitF : String → Nat) (h : DictHeap) (a : Nat)
    (depths : List Nat) : DictHeap × RunResult :=
  runLoopH nmax submitF depths (h ++ [heapRead h a]) h.length []

/-! ## Lemmas on digit strings -/

theorem takeDigits_append (ds rest : List Char) (hds : ∀ c ∈ ds, c.isDigit = true)
    (hrest : ∀ c, rest.head? = some c → c.isDigit = false) :
    takeDigits (ds ++ rest) = (ds, rest) := by
  induction ds with
  | nil =>
    cases rest with
    | nil => rfl
    | cons c cs =>
      have hc : c.isDigit = false := hrest c rfl
      simp [takeDigits, hc]
  | cons d ds ih =>
    have hd : d.isDigit = true := hds d (List.mem_cons_self d ds)
    have := ih (fun c hc => hds c (List.mem_cons_of_mem d hc))
    simp only [List.cons_append, takeDigits, hd, if_true, List.append_eq, this]

theorem takeDigits_fst_cons (l : List Char) (c : Char) (ds : List Char)
    (h : (takeDigits l).1 = c :: ds) :
    l.head? = some c ∧ c.isDigit = true := by
  cases l with
  | nil => simp [takeDigits] at h
  | cons x xs =>
    by_cases hx : x.isDigit
    · have hx2 : takeDigits (x :: xs) = (x :: (takeDigits xs).1, (takeDigits xs).2) := by
        simp only [takeDigits, hx, if_true]
      rw [hx2] at h
      simp at h
      rw [← h.1]
      exact ⟨rfl, hx⟩
    · have hx2 : takeDigits (x :: xs) = ([], x :: xs) := by
        simp only [takeDigits, hx, if_false, Bool.false_eq_true]
      rw [hx2] at h
      simp at h

theorem natRepr_ne_nil (n : Nat) : natRepr n ≠ [] := by
  unfold natRepr
  by_cases h : n = 0
  · simp [h]
  · simp [h, Nat.digits_ne_nil_iff_ne_zero.mpr h]

theorem digitChar_isDigit (d : Nat) (hd : d < 10) : (Nat.digitChar d).isDigit = true := by
  interval_cases d <;> decide

theorem digitChar_toNat (d : Nat) (hd : d < 10) : (Nat.digitChar d).toNat - 48 = d := by
  interval_cases d <;> decide

theorem natRepr_all_digits (n : Nat) : ∀ c ∈ natRepr n, c.isDigit = true := by
  intro c hc
  unfold natRepr at hc
  by_cases h : n = 0
  · simp [h] at hc
    simp [hc]
  · simp [h] at hc
    obtain ⟨d, hd, rfl⟩ := hc
    exact digitChar_isDigit d (Nat.digits_lt_base (by norm_num) hd)

theorem foldr_digits_ofDigits (l : List Nat) (hl : ∀ d ∈ l, d < 10) :
    l.foldr (fun d a => 10 * a + ((Nat.digitChar d).toNat - 48)) 0 = Nat.ofDigits 10 l := by
  induction l with
  | nil => simp [Nat.ofDigits]
  | cons d tl ih =>
    have hd : d < 10 := hl d (List.mem_cons_self d tl)
    have htl := ih (fun x hx => hl x (List.mem_cons_of_mem d hx))
    simp only [List.foldr_cons, htl, Nat.ofDigits_cons, digitChar_toNat d hd]
    omega

theorem natOfDigits_natRepr (n : Nat) : natOfDigits (natRepr n) = n := by
  by_cases h : n = 0
  · simp [h, natRepr, natOfDigits]
  · unfold natRepr natOfDigits
    rw [if_neg h, List.foldl_map, List.foldl_reverse]
    have := foldr_digits_ofDigits (Nat.digits 10 n)
      (fun d hd => Nat.digits_lt_base (by norm_num) hd)
    rw [this, Nat.ofDigits_digits]

/-! ## Claim C3: `submit` parses the confirmation line -/

/-- Claim C3: for every submit call, if the external command's captured
stdout begins with `Submitted batch job <digits>`, `submit` returns exactly
the integer those digits denote; and when the pattern occurs nowhere in the
output, `submit` raises a `RuntimeError` instead of returning a job ID. -/
theorem submit_parses_confirmation_line (out : List Char) :
    (∀ ds rest, ds ≠ [] → (∀ c ∈ ds, c.isDigit = true) →
      (∀ c, rest.head? = some c → c.isDigit = false) →
      out = submittedPrefix ++ (ds ++ rest) →
      submitParse out = .ok (natOfDigits ds)) ∧
    (¬ submittedPatternPresent out →
      submitParse out = .error ("Cannot match job ID from '" ++ String.mk out ++ "'.")) := by
  constructor
  · intro ds rest hne hds hrest hout
    subst hout
    have hpre : submittedPrefix.isPrefixOf (submittedPrefix ++ (ds ++ rest)) = true :=
      List.isPrefixOf_iff_prefix.mpr (List.prefix_append _ _)
    have hdrop : (submittedPrefix ++ (ds ++ rest)).drop submittedPrefix.length = ds ++ rest :=
      List.drop_left _ _
    have htake : takeDigits (ds ++ rest) = (ds, rest) := takeDigits_append ds rest hds hrest
    simp [submitParse, matchJobid, hpre, hdrop, htake, hne]
  · intro habsent
    cases hm : matchJobid out with
    | none => simp [submitParse, hm]
    | some j =>
      exfalso
      unfold matchJobid at hm
      by_cases hpre : submittedPrefix.isPrefixOf out
      · obtain ⟨t, ht⟩ := List.isPrefixOf_iff_prefix.mp hpre
        have hdrop : out.drop submittedPrefix.length = t := by
          rw [← ht]
          exact List.drop_left _ _
        rw [if_pos hpre, hdrop] at hm
        cases hds : (takeDigits t).1 with
        | nil => rw [if_pos hds] at hm; exact Option.noConfusion hm
        | cons c ds =>
          obtain ⟨h1, h2⟩ := takeDigits_fst_cons t c ds hds
          cases t with
          | nil => exact Option.noConfusion h1
          | cons x xs =>
            simp only [List.head?_cons, Option.some.injEq] at h1
            subst h1
            refine habsent ⟨0, x, h2, ?_⟩
            rw [List.drop_zero, ← ht]
            have hassoc : submittedPrefix ++ x :: xs = (submittedPrefix ++ [x]) ++ xs := by
              simp
            rw [hassoc]
            exact List.isPrefixOf_iff_prefix.mpr (List.prefix_append _ _)
      · rw [if_neg hpre] at hm
        exact Option.noConfusion hm

/-! ## Lemmas on the submission governor -/

theorem popitemN_admitted (k : Nat) (d : ScriptsDict) :
    (popitemN k d).admitted = min k d.length := by
  induction k generalizing d with
  | zero => simp [popitemN, PopResult.admitted]
  | succ k ih =>
    cases d with
    | nil => simp [popitemN, PopResult.admitted]
    | cons x xs =>
      have hlen : ((x :: xs).dropLast).length = xs.length := by
        simp [List.length_dropLast]
      have hrec := ih ((x :: xs).dropLast)
      rw [hlen] at hrec
      cases h : popitemN k ((x :: xs).dropLast) with
      | ok popped rest =>
        rw [h] at hrec
        simp only [PopResult.admitted] at hrec
        simp only [popitemN, h, PopResult.admitted, List.length_cons]
        omega
      | keyError popped =>
        rw [h] at hrec
        simp only [PopResult.admitted] at hrec
        simp only [popitemN, h, PopResult.admitted, List.length_cons]
        omega

theorem stepPops_admitted (nmax depth : Nat) (d : ScriptsDict) :
    (stepPops nmax depth d).admitted = min (nnew nmax depth).toNat d.length :=
  popitemN_admitted _ d

theorem stepPops_at_ceiling (nmax depth : Nat) (d : ScriptsDict) (h : nmax ≤ depth) :
    stepPops nmax depth d = .ok [] d := by
  have hz : (nnew nmax depth).toNat = 0 := by
    unfold nnew
    omega
  rw [stepPops, hz]
  rfl

theorem runLoop_trace_headroom (nmax : Nat) (f : String → Nat) (depths : List Nat)
    (d : ScriptsDict) (acc : List (String × Nat)) (r : IterRecord)
    (hr : r ∈ (runLoop nmax f depths d acc).1) :
    (r.admitted : Int) ≤ max 0 ((nmax : Int) - (r.depth : Int)) ∧
      (nmax ≤ r.depth → r.admitted = 0) := by
  induction depths generalizing d acc with
  | nil =>
    cases d with
    | nil => simp [runLoop] at hr
    | cons x xs => simp [runLoop] at hr
  | cons depth depths ih =>
    cases d with
    | nil => simp [runLoop] at hr
    | cons x xs =>
      have hadm := stepPops_admitted nmax depth (x :: xs)
      have hnn : nnew nmax depth = (nmax : Int) - (depth : Int) := rfl
      cases h : stepPops nmax depth (x :: xs) with
      | ok popped rest =>
        rw [h] at hadm
        simp only [PopResult.admitted] at hadm
        simp only [runLoop, h, List.mem_cons] at hr
        rcases hr with rfl | hr
        · constructor
          · show ((popped.length : Nat) : Int) ≤ max 0 ((nmax : Int) - (depth : Int))
            rw [hadm, hnn]
            push_cast
            omega
          · intro hle
            show popped.length = 0
            have hz : (nnew nmax depth).toNat = 0 := by
              rw [hnn]
              have : (nmax : Nat) ≤ depth := hle
              omega
            simp [hadm, hz]
        · exact ih rest _ hr
      | keyError popped =>
        rw [h] at hadm
        simp only [PopResult.admitted] at hadm
        simp only [runLoop, h, List.mem_cons, List.not_mem_nil, or_false] at hr
        subst hr
        constructor
        · show ((popped.length : Nat) : Int) ≤ max 0 ((nmax : Int) - (depth : Int))
          rw [hadm, hnn]
          push_cast
          omega
        · intro hle
          show popped.length = 0
          have hz : (nnew nmax depth).toNat = 0 := by
            rw [hnn]
            have : (nmax : Nat) ≤ depth := hle
            omega
          simp [hadm, hz]

/-! ## Claim C4: the headroom invariant -/

/-- Claim C4: in every iteration of the submission loop of
`SBatch.__call__`, for every observed queue depth, the number of jobs
popped and submitted in that iteration is at most
`max 0 (ceiling - observed depth)`; in particular, when the observed depth
meets or exceeds the ceiling the iteration submits zero jobs. -/
theorem sbatch_call_headroom_invariant (nmax : Nat) (f : String → Nat)
    (scripts : ScriptsDict) (depths : List Nat) (r : IterRecord)
    (hr : r ∈ (SBatchCall nmax f scripts depths).1) :
    (r.admitted : Int) ≤ max 0 ((nmax : Int) - (r.depth : Int)) ∧
      (nmax ≤ r.depth → r.admitted = 0) :=
  runLoop_trace_headroom nmax f depths scripts [] r hr

/-- Witness for C4: one pending job, ceiling 2, observed depth 3: the
iteration is recorded with zero admissions. -/
theorem sbatch_call_headroom_invariant_witness :
    (⟨3, 0⟩ : IterRecord) ∈ (SBatchCall 2 (fun _ => 7) [("a", "x")] [3]).1 ∧
      (((⟨3, 0⟩ : IterRecord).admitted : Int) ≤
          max 0 ((2 : Int) - ((⟨3, 0⟩ : IterRecord).depth : Int)) ∧
        (2 ≤ (⟨3, 0⟩ : IterRecord).depth → (⟨3, 0⟩ : IterRecord).admitted = 0)) :=
  ⟨by decide,
    sbatch_call_headroom_invariant 2 (fun _ => 7) [("a", "x")] [3] ⟨3, 0⟩ (by decide)⟩

/-! ## Claim C1: the pop loop crashes when headroom exceeds the pool -/

/-- Claim C1 (code bug): with one pending job, ceiling 2 and observed queue
depth 0, `SBatch.__call__` computes `nnew = 2` and calls
`scripts.popitem()` twice: the first pop succeeds and the job is submitted,
the second pop hits the empty dict and raises `KeyError`, contradicting
`admit = min(max(0, ceiling - depth), len(pending)) = 1`. -/
theorem sbatch_call_crash_on_small_pool :
    SBatchCall 2 (fun _ => 7) [("a", "x")] [0] =
      ([⟨0, 1⟩], RunResult.keyError [("a", 7)]) := by
  decide

/-! ## Claim C8: the caller's mapping is never mutated -/

theorem runLoopH_frame (nmax : Nat) (f : String → Nat) (depths : List Nat)
    (h : DictHeap) (b : Nat) (acc : List (String × Nat)) (a : Nat) (hab : a ≠ b) :
    ((runLoopH nmax f depths h b acc).1).get? a = h.get? a := by
  induction depths generalizing h acc with
  | nil =>
    by_cases hd : heapRead h b = [] <;> simp [runLoopH, hd]
  | cons depth depths ih =>
    by_cases hd : heapRead h b = []
    · simp [runLoopH, hd]
    · cases hsp : stepPops nmax depth (heapRead h b) with
      | ok popped rest =>
        simp only [runLoopH, if_neg hd, hsp]
        rw [ih (heapWrite h b rest) _]
        exact List.get?_set_ne _ _ (fun hba => hab hba.symm)
      | keyError popped =>
        simp only [runLoopH, if_neg hd, hsp]
        exact List.get?_set_ne _ _ (fun hba => hab hba.symm)

/-- Claim C8: `SBatch.__call__` copies the input mapping
(`scripts = dict(scripts)`), so for every input mapping and every run, the
dict object the caller passed in holds exactly the same entries after the
call as before it. -/
theorem sbatch_call_caller_dict_unchanged (nmax : Nat) (f : String → Nat)
    (h : DictHeap) (a : Nat) (depths : List Nat) (ha : a < h.length) :
    ((SBatchCallH nmax f h a depths).1).get? a = h.get? a := by
  unfold SBatchCallH
  rw [runLoopH_frame nmax f depths _ _ _ a (by omega)]
  exact List.get?_append ha

/-- Witness for C8: a heap with one caller dict, a run that submits the
job; the caller's cell still holds the original entry. -/
theorem sbatch_call_caller_dict_unchanged_witness :
    0 < ([[("a", "x")]] : DictHeap).length ∧
      ((SBatchCallH 2 (fun _ => 7) [[("a", "x")]] 0 [0]).1).get? 0 =
        ([[("a", "x")]] : DictHeap).get? 0 :=
  ⟨by decide,
    sbatch_call_caller_dict_unchanged 2 (fun _ => 7) [[("a", "x")]] 0 [0] (by decide)⟩

/-! ## Lemmas on `failed` -/

theorem parseJobidBatch_fmt (n : Nat) : parseJobidBatch (fmtJobid n) = some n := by
  have htd : takeDigits (natRepr n ++ ".batch".toList) = (natRepr n, ".batch".toList) :=
    takeDigits_append _ _ (natRepr_all_digits n) (by
      intro c hc
      have hhead : (".batch".toList).head? = some '.' := rfl
      rw [hhead] at hc
      injection hc with hc
      subst hc
      decide)
  unfold parseJobidBatch fmtJobid
  rw [htd]
  dsimp only
  cases hrep : natRepr n with
  | nil => exact absurd hrep (natRepr_ne_nil n)
  | cons a as =>
    have hlen : (a :: as).length = as.length + 1 := by simp
    have hdrop : ((a :: as) ++ ".batch".toList).drop (as.length + 1) = ".batch".toList := by
      rw [← hlen, List.drop_left]
    have htake : ((a :: as) ++ ".batch".toList).take (as.length + 1) = a :: as := by
      rw [← hlen, List.take_left]
    rw [hlen]
    simp only [jobidBatchTry, hdrop, htake]
    rw [show (".batch".toList) = '.' :: "batch".toList from rfl]
    have hpre : ("batch".toList).isPrefixOf ("batch".toList) = true := by decide
    simp only [hpre, if_true]
    rw [← hrep, natOfDigits_natRepr]

theorem fmtJobid_inj (a b : Nat) (h : fmtJobid a = fmtJobid b) : a = b := by
  have ha := parseJobidBatch_fmt a
  rw [h, parseJobidBatch_fmt b] at ha
  injection ha with ha
  exact ha.symm

theorem pyChunks_flatten {α : Type} (l : List α) : (pyChunks l).flatten = l := by
  induction l using pyChunks.induct with
  | case1 => simp [pyChunks]
  | case2 x xs ih =>
    rw [pyChunks]
    simp only [List.flatten_cons, ih, List.take_append_drop]

theorem pyChunks_length_le {α : Type} (l : List α) (c : List α) (hc : c ∈ pyChunks l) :
    c.length ≤ 1000 := by
  induction l using pyChunks.induct with
  | case1 => simp [pyChunks] at hc
  | case2 x xs ih =>
    rw [pyChunks] at hc
    rcases List.mem_cons.mp hc with rfl | hmem
    · simp [List.length_take]
    · exact ih hmem

theorem chunked_rows_eq (oracle : List Char → String) (l : List (List Char)) :
    ((pyChunks l).map (sacctRows oracle)).flatten = sacctRows oracle l := by
  unfold sacctRows
  rw [← List.map_flatten, pyChunks_flatten]

theorem selectFailed_fmt (oracle : List Char → String) (ids : List Nat) :
    ∃ sel, selectFailed (sacctRows oracle (ids.map fmtJobid)) = .ok sel ∧
      ∀ j, j ∈ sel ↔ j ∈ ids ∧ oracle (fmtJobid j) ≠ "COMPLETED" := by
  induction ids with
  | nil => exact ⟨[], rfl, by simp⟩
  | cons i rest ih =>
    obtain ⟨sel, hsel, hiff⟩ := ih
    have hrows : sacctRows oracle ((i :: rest).map fmtJobid) =
        (fmtJobid i, oracle (fmtJobid i)) :: sacctRows oracle (rest.map fmtJobid) := by
      simp [sacctRows]
    by_cases hc : oracle (fmtJobid i) = "COMPLETED"
    · refine ⟨sel, ?_, ?_⟩
      · rw [hrows]
        simp only [selectFailed, hc, if_true, hsel]
      · intro j
        rw [hiff j]
        constructor
        · rintro ⟨hj, hne⟩
          exact ⟨List.mem_cons_of_mem i hj, hne⟩
        · rintro ⟨hj, hne⟩
          rcases List.mem_cons.mp hj with rfl | hj
          · exact absurd hc hne
          · exact ⟨hj, hne⟩
    · refine ⟨i :: sel, ?_, ?_⟩
      · rw [hrows]
        simp only [selectFailed, hc, if_false, parseJobidBatch_fmt i, hsel]
      · intro j
        constructor
        · intro hj
          rcases List.mem_cons.mp hj with rfl | hj
          · exact ⟨List.mem_cons_self _ _, hc⟩
          · obtain ⟨h1, h2⟩ := (hiff j).mp hj
            exact ⟨List.mem_cons_of_mem i h1, h2⟩
        · rintro ⟨hj, hne⟩
          rcases List.mem_cons.mp hj with rfl | hj
          · exact List.mem_cons_self _ _
          · exact List.mem_cons_of_mem i ((hiff j).mpr ⟨hj, hne⟩)

theorem failedRun_ok_of_ne_nil (oracle : List Char → String) (jobs : List (String × Nat))
    (hne : jobs ≠ []) :
    ∃ sel : List Nat,
      (∀ j, j ∈ sel ↔ j ∈ jobs.map Prod.snd ∧ oracle (fmtJobid j) ≠ "COMPLETED") ∧
      failedRun oracle jobs = .ok (jobs.filter fun p => sel.contains p.2) := by
  obtain ⟨sel, hsel, hiff⟩ := selectFailed_fmt oracle (jobs.map Prod.snd)
  have hmap : (jobs.map fun p => fmtJobid p.2) = (jobs.map Prod.snd).map fmtJobid := by
    rw [List.map_map]
    rfl
  refine ⟨sel, hiff, ?_⟩
  cases jobs with
  | nil => exact absurd rfl hne
  | cons x xs =>
    have hw : maxLen ((x :: xs).map fun p => fmtJobid p.2) =
        Except.ok (((xs.map fun p => fmtJobid p.2).map List.length).foldl max
          (fmtJobid x.2).length) := rfl
    unfold failedRun
    rw [hw, hmap, chunked_rows_eq, hsel]

/-! ## Claim C2: classification of terminal states -/

/-- Claim C2: for every job in a batch handed to `failed`, a job whose
reported terminal state is `COMPLETED` is absent from the returned failed
mapping, and a job whose reported state is anything else is present in the
returned mapping under its original name and job ID. -/
theorem failed_classifies_completed (oracle : List Char → String)
    (jobs : List (String × Nat)) (name : String) (jid : Nat)
    (hmem : (name, jid) ∈ jobs) :
    ∃ m, failedRun oracle jobs = .ok m ∧
      (oracle (fmtJobid jid) = "COMPLETED" → (name, jid) ∉ m) ∧
      (oracle (fmtJobid jid) ≠ "COMPLETED" → (name, jid) ∈ m) := by
  have hne : jobs ≠ [] := by
    intro h
    rw [h] at hmem
    exact List.not_mem_nil _ hmem
  obtain ⟨sel, hiff, hrun⟩ := failedRun_ok_of_ne_nil oracle jobs hne
  refine ⟨_, hrun, ?_, ?_⟩
  · intro hc hmf
    obtain ⟨_, hcon⟩ := List.mem_filter.mp hmf
    have hj : jid ∈ sel := List.elem_iff.mp hcon
    exact ((hiff jid).mp hj).2 hc
  · intro hc
    have hj : jid ∈ sel :=
      (hiff jid).mpr ⟨List.mem_map.mpr ⟨(name, jid), hmem, rfl⟩, hc⟩
    exact List.mem_filter.mpr ⟨hmem, List.elem_iff.mpr hj⟩

/-- Witness for C2: one job with ID 5 whose reported state is `FAILED`; the
returned mapping contains it. -/
theorem failed_classifies_completed_witness :
    ∃ m, failedRun (fun _ => "FAILED") [("j", 5)] = .ok m ∧
      ((fun (_ : List Char) => "FAILED") (fmtJobid 5) = "COMPLETED" → ("j", 5) ∉ m) ∧
      ((fun (_ : List Char) => "FAILED") (fmtJobid 5) ≠ "COMPLETED" → ("j", 5) ∈ m) :=
  failed_classifies_completed (fun _ => "FAILED") [("j", 5)] "j" 5 (by simp)

/-! ## Claim C6: chunked queries equal one single query -/

/-- Claim C6: `failed` splits the formatted job IDs into slices of at most
1000, every given job ID lands in exactly one slice (their concatenation is
the original list, one `sacct` invocation per slice), and the
classification result equals the one a single invocation over all IDs would
produce. -/
theorem failed_chunking_single_query (oracle : List Char → String)
    (jobs : List (String × Nat)) :
    (∀ c ∈ pyChunks (jobs.map fun p => fmtJobid p.2), c.length ≤ 1000) ∧
      (pyChunks (jobs.map fun p => fmtJobid p.2)).flatten =
        (jobs.map fun p => fmtJobid p.2) ∧
      failedRun oracle jobs = failedRunSingle oracle jobs := by
  refine ⟨fun c hc => pyChunks_length_le _ c hc, pyChunks_flatten _, ?_⟩
  unfold failedRun failedRunSingle
  rw [chunked_rows_eq]

/-! ## Claim C10: the empty jobs mapping raises -/

/-- Claim C10: calling `failed` with an empty jobs mapping raises
(`max` over the empty sequence of formatted job IDs) instead of returning
an empty failed mapping; with a non-empty mapping the call returns a
mapping. -/
theorem failed_empty_mapping_raises (oracle : List Char → String)
    (jobs : List (String × Nat)) :
    failedRun oracle [] = .error "max() arg is an empty sequence" ∧
      (jobs ≠ [] → ∃ m, failedRun oracle jobs = .ok m) := by
  constructor
  · rfl
  · intro hne
    obtain ⟨sel, _, hrun⟩ := failedRun_ok_of_ne_nil oracle jobs hne
    exact ⟨_, hrun⟩

/-! ## Claim C5: persistence round-trip -/

theorem loadScript_encodeScript (s : SBatchScript) : loadScript (encodeScript s) = s := by
  have hstr : ∀ u : String, ¬ u.length > 0 → u = "" := by
    intro u hu
    apply String.ext
    have hz : u.data.length = 0 := by
      have : u.length = 0 := by omega
      exact this
    simpa using List.length_eq_zero.mp hz
  obtain ⟨se, sa, so, st, sti, sto⟩ := s
  have ha : (if sa.length > 0 then some sa else none).getD "" = sa := by
    by_cases h : sa.length > 0
    · simp [h]
    · simp [h, hstr sa h]
  have ho : (if so.length > 0 then some so else none).getD [] = so := by
    by_cases h : so.length > 0
    · simp [h]
    · have hnil : so = [] := List.length_eq_zero.mp (by omega)
      simp [h, hnil]
  have hti : (if sti.length > 0 then some sti else none).getD [] = sti := by
    by_cases h : sti.length > 0
    · simp [h]
    · have hnil : sti = [] := List.length_eq_zero.mp (by omega)
      simp [h, hnil]
  have hto : (if sto.length > 0 then some sto else none).getD [] = sto := by
    by_cases h : sto.length > 0
    · simp [h]
    · have hnil : sto = [] := List.length_eq_zero.mp (by omega)
      simp [h, hnil]
  unfold loadScript encodeScript
  dsimp only
  rw [ha, ho, hti, hto]
  rfl

/-- Claim C5: for every script descriptor -- also ones whose text carries
macro placeholders and ones with file-transfer lists -- loading the encoded
persisted representation yields a descriptor equal to the original, where
descriptor equality is `SBatchScript.__eq__`: the rendered script texts are
byte-identical. -/
theorem save_load_roundtrip_renders_equal (s : SBatchScript) :
    SBatchScript.eq (loadScript (encodeScript s)) s := by
  unfold SBatchScript.eq
  rw [loadScript_encodeScript]

/-! ## Claim C7: a missing macro aborts rendering -/

theorem collectRefs_missing_lookup (m : List (String × String)) (n : String)
    (hm : m.lookup n = none) :
    ∀ cs names, collectRefs cs = some names → n ∈ names → pyFormat m cs = none := by
  intro cs
  induction cs using collectRefs.induct with
  | case1 =>
    intro names hc hn
    simp [collectRefs] at hc
    subst hc
    simp at hn
  | case2 cs ih =>
    intro names hc hn
    rw [show collectRefs ('{' :: '{' :: cs) = collectRefs cs from by rw [collectRefs]] at hc
    rw [show pyFormat m ('{' :: '{' :: cs) = (pyFormat m cs).map (fun t => '{' :: t) from by
      rw [pyFormat]]
    rw [ih names hc hn]
    rfl
  | case3 cs ih =>
    intro names hc hn
    rw [show collectRefs ('}' :: '}' :: cs) = collectRefs cs from by rw [collectRefs]] at hc
    rw [show pyFormat m ('}' :: '}' :: cs) = (pyFormat m cs).map (fun t => '}' :: t) from by
      rw [pyFormat]]
    rw [ih names hc hn]
    rfl
  | case4 cs hguard hdrop =>
    intro names hc hn
    rw [collectRefs.eq_def] at hc
    split at hc
    all_goals rename_i heq
    · exact absurd heq (by simp)
    · injection heq with h1 h2
      exact ((hguard _ h2)).elim
    · injection heq with h1 h2
      exact absurd h1 (by decide)
    · injection heq with h1 h2
      subst h2
      rw [hdrop] at hc
      exact Option.noConfusion hc
    · injection heq with h1 h2
      exact absurd h1 (by decide)
    · rename_i g1 g2 g3 g4
      injection heq with h1 h2
      exact (g3 h1.symm).elim
  | case5 cs hguard head rest hdrop hfield =>
    intro names hc hn
    rw [collectRefs.eq_def] at hc
    split at hc
    all_goals rename_i heq
    · exact absurd heq (by simp)
    · injection heq with h1 h2
      exact ((hguard _ h2)).elim
    · injection heq with h1 h2
      exact absurd h1 (by decide)
    · injection heq with h1 h2
      subst h2
      rw [hdrop, hfield] at hc
      exact Option.noConfusion hc
    · injection heq with h1 h2
      exact absurd h1 (by decide)
    · rename_i g1 g2 g3 g4
      injection heq with h1 h2
      exact (g3 h1.symm).elim
  | case6 cs hguard head rest hdrop v hfield ih =>
    intro names hc hn
    rw [collectRefs.eq_def] at hc
    split at hc
    all_goals rename_i heq
    · exact absurd heq (by simp)
    · injection heq with h1 h2
      exact ((hguard _ h2)).elim
    · injection heq with h1 h2
      exact absurd h1 (by decide)
    · injection heq with h1 h2
      subst h2
      rw [hdrop, hfield] at hc
      dsimp only at hc
      obtain ⟨restNames, hrest, hcons⟩ := Option.map_eq_some'.mp hc
      rw [pyFormat.eq_def]
      split
      all_goals rename_i heq2
      · exact absurd heq2 (by simp)
      · injection heq2 with h1 h2
        exact ((hguard _ h2)).elim
      · injection heq2 with h1 h2
        exact absurd h1 (by decide)
      · injection heq2 with h1 h2
        subst h2
        rw [hdrop, hfield]
        dsimp only
        by_cases hv : v = n
        · subst hv
          rw [hm]
        · subst hcons
          have hn2 : n ∈ restNames := by
            rcases List.mem_cons.mp hn with rfl | hmem
            · exact absurd rfl hv
            · exact hmem
          cases hlk : List.lookup v m with
          | none => rfl
          | some w =>
            dsimp only
            rw [ih restNames hrest hn2]
            rfl
      · injection heq2 with h1 h2
        exact absurd h1 (by decide)
      · rename_i g1 g2 g3 g4
        injection heq2 with h1 h2
        exact (g3 h1.symm).elim
    · injection heq with h1 h2
      exact absurd h1 (by decide)
    · rename_i g1 g2 g3 g4
      injection heq with h1 h2
      exact (g3 h1.symm).elim
  | case7 tail hguard =>
    intro names hc hn
    rw [collectRefs.eq_def] at hc
    split at hc
    all_goals rename_i heq
    · exact absurd heq (by simp)
    · injection heq with h1 h2
      exact absurd h1 (by decide)
    · injection heq with h1 h2
      exact ((hguard _ h2)).elim
    · injection heq with h1 h2
      exact absurd h1 (by decide)
    · injection heq with h1 h2
      exact Option.noConfusion hc
    · rename_i g1 g2 g3 g4
      injection heq with h1 h2
      exact (g4 h1.symm).elim
  | case8 c cs h1 h2 h3 h4 ih =>
    intro names hc hn
    rw [collectRefs.eq_def] at hc
    split at hc
    all_goals rename_i heq
    · exact absurd heq (by simp)
    · injection heq with ha hb
      exact (h1 _ ha hb).elim
    · injection heq with ha hb
      exact (h2 _ ha hb).elim
    · injection heq with ha hb
      exact (h3 ha).elim
    · injection heq with ha hb
      exact (h4 ha).elim
    · injection heq with ha hb
      subst ha
      subst hb
      rw [pyFormat.eq_def]
      split
      all_goals rename_i heq2
      · exact absurd heq2 (by simp)
      · injection heq2 with ha hb
        exact (h1 _ ha hb).elim
      · injection heq2 with ha hb
        exact (h2 _ ha hb).elim
      · injection heq2 with ha hb
        exact (h3 ha).elim
      · injection heq2 with ha hb
        exact (h4 ha).elim
      · injection heq2 with ha hb
        subst ha
        subst hb
        rw [ih names hc hn]
        rfl

theorem macroStr_none_of_field_none (s : SBatchScriptMacro) (t : String)
    (ht : t ∈ descrFields s.script.description)
    (hnone : pyFormatStr s.macros t = none) :
    s.str = none := by
  simp only [descrFields, List.mem_cons, List.not_mem_nil, or_false] at ht
  unfold SBatchScriptMacro.str
  rcases ht with rfl | rfl | rfl | rfl | rfl | rfl
  · simp [hnone]
  · cases h1 : pyFormatStr s.macros s.script.description.options <;>
      simp [h1, hnone]
  · cases h1 : pyFormatStr s.macros s.script.description.options <;>
      cases h2 : pyFormatStr s.macros s.script.description.executable <;>
      simp [h1, h2, hnone]
  · cases h1 : pyFormatStr s.macros s.script.description.options <;>
      cases h2 : pyFormatStr s.macros s.script.description.executable <;>
      cases h3 : pyFormatStr s.macros s.script.description.arguments <;>
      simp [h1, h2, h3, hnone]
  · cases h1 : pyFormatStr s.macros s.script.description.options <;>
      cases h2 : pyFormatStr s.macros s.script.description.executable <;>
      cases h3 : pyFormatStr s.macros s.script.description.arguments <;>
      cases h4 : pyFormatStr s.macros s.script.description.transfer_executable <;>
      simp [h1, h2, h3, h4, hnone]
  · cases h1 : pyFormatStr s.macros s.script.description.options <;>
      cases h2 : pyFormatStr s.macros s.script.description.executable <;>
      cases h3 : pyFormatStr s.macros s.script.description.arguments <;>
      cases h4 : pyFormatStr s.macros s.script.description.transfer_executable <;>
      cases h5 : pyFormatStr s.macros s.script.description.transfer_input_files <;>
      simp [h1, h2, h3, h4, h5, hnone]

/-- Claim C7: rendering a macro script whose underlying script text
references a macro name that is absent from the supplied macro mapping
raises an error that reaches the caller (`str` is `none`); it never returns
a rendered text, so no text with an unresolved placeholder can be handed to
`submit`. -/
theorem macroscript_missing_macro_raises (s : SBatchScriptMacro) (t : String)
    (names : List String) (n : String)
    (ht : t ∈ descrFields s.script.description)
    (hrefs : collectRefs t.toList = some names) (hn : n ∈ names)
    (hmiss : s.macros.lookup n = none) :
    s.str = none := by
  apply macroStr_none_of_field_none s t ht
  unfold pyFormatStr
  rw [collectRefs_missing_lookup s.macros n hmiss t.toList names hrefs hn]
  rfl

/-- Witness for C7: a script whose arguments reference the macro `msg`
rendered with an empty macro mapping. -/
theorem macroscript_missing_macro_raises_witness :
    SBatchScriptMacro.str ⟨{ executable := "echo", arguments := "\x7bmacros[msg]\x7d" }, []⟩ =
      none :=
  macroscript_missing_macro_raises
    ⟨{ executable := "echo", arguments := "\x7bmacros[msg]\x7d" }, []⟩
    "\x7bmacros[msg]\x7d" ["msg"] "msg" (by simp [descrFields, SBatchScript.description])
    (by
      rw [show ("\x7bmacros[msg]\x7d" : String).toList =
        '{' :: ("macros[msg]\x7d".toList) from rfl]
      rw [collectRefs.eq_def]
      simp [fieldName, breakAtChar, List.dropWhile, collectRefs]) (by decide) rfl

/-! ## Claim C9: a collection entry must carry the `macros` key -/

/-- Claim C9: for every collection entry that the rescue list does not
filter out, a missing `macros` key makes the loader raise `KeyError`
instead of producing a script with an empty macro mapping. -/
theorem collectionLoad_cons (loadFile : String → SBatchScript)
    (rescue : Option (List String)) (x : CollectionEntry) (xs : List CollectionEntry) :
    collectionLoad loadFile rescue (x :: xs) =
      if rescueSkips rescue x.name then
        collectionLoad loadFile rescue xs
      else
        match x.macros with
        | none => .error "KeyError: 'macros'"
        | some m =>
          match collectionLoad loadFile rescue xs with
          | .ok rest => .ok ((x.name, ⟨loadFile x.script, m⟩) :: rest)
          | .error msg => .error msg := rfl

theorem collection_missing_macros_raises (loadFile : String → SBatchScript)
    (rescue : Option (List String)) (es : List CollectionEntry) (e : CollectionEntry)
    (he : e ∈ es) (hmac : e.macros = none)
    (hkeep : match rescue with | none => True | some r => e.name ∈ r) :
    ∃ msg, collectionLoad loadFile rescue es = .error msg := by
  induction es with
  | nil => exact absurd he (List.not_mem_nil e)
  | cons x xs ih =>
    rcases List.mem_cons.mp he with rfl | hmem
    · have hfilter : rescueSkips rescue e.name = false := by
        cases rescue with
        | none => rfl
        | some r =>
          have hk : e.name ∈ r := hkeep
          simp [rescueSkips, hk]
      refine ⟨"KeyError: 'macros'", ?_⟩
      rw [collectionLoad_cons, hfilter]
      simp [hmac]
    · cases hf : rescueSkips rescue x.name with
      | true =>
        obtain ⟨msg, hrec⟩ := ih hmem
        refine ⟨msg, ?_⟩
        rw [collectionLoad_cons, hf]
        simpa using hrec
      | false =>
        cases hx : x.macros with
        | none =>
          refine ⟨"KeyError: 'macros'", ?_⟩
          rw [collectionLoad_cons, hf]
          simp [hx]
        | some mx =>
          obtain ⟨msg, hrec⟩ := ih hmem
          refine ⟨msg, ?_⟩
          rw [collectionLoad_cons, hf]
          simp [hx, hrec]

/-- Witness for C9: a collection with one entry holding only `name` and
`script` and no rescue list; loading raises `KeyError`. -/
theorem collection_missing_macros_raises_witness :
    ∃ msg, collectionLoad (fun _ => { executable := "x" }) none
        [⟨"job", "path", none⟩] = Except.error msg :=
  collection_missing_macros_raises (fun _ => { executable := "x" }) none
    [⟨"job", "path", none⟩] ⟨"job", "path", none⟩ (by simp) rfl trivial

end PyssubModel
